import Mathlib

/-!
# Verification of the httptines proxy-dispatch engine

Shallow embedding of the parts of the `httptines` Go package that the
claims of the specification are about:

* the `Server` proxy entry with its `start`/`finish`/`disable` lifecycle and
  the five-element `l5` failure ring (src/unnamed/part_002);
* capacity calibration: `minimalCapacity` and `autoAdjustCapacity`
  (src/unnamed/part_002);
* the worker target queue operations `shift` and `retrigger`
  (src/worker.go);
* the success/error handling in `processTarget` (src/worker.go);
* the statistics `rpm` tail scan (src/stat.go);
* the `fetchProxies` listing pipeline with its pointer-keyed `proxyMap`
  (src/worker.go).

Conventions: Go `int` fields are modelled as `Int` (the claims only exercise
small values, far from 64-bit overflow); the `uint32` field `Disabled` is
modelled as `Nat` reduced modulo `2^32`, matching `atomic.AddUint32`
wrap-around. Time is abstracted to integer milliseconds/seconds supplied as
parameters. Network I/O outcomes (request success/failure, fetched listing
bodies) are inputs to the functions, since the Go code branches only on them.
-/

namespace Httptines

/-- Modulus of the Go `uint32` type, used by `atomic.AddUint32(&s.Disabled, 1)`. -/
def UINT32MOD : Nat := 4294967296

/-- The `Server` struct of src/unnamed/part_002 (fields relevant to the
claims). `Disabled` is the `uint32` counter; `l5` is the `[5]bool` ring and
`l5i` its index; `canceled` models the observable status of the
`context.Context` owned by the server (its `cancel` function marks the
context canceled; the Go standard library makes a second `cancel` call a
no-op on the token itself). -/
structure Server where
  URLs : String
  Disabled : Nat
  Capacity : Int
  Latency : Int
  Requests : Int
  Positive : Int
  Negative : Int
  l5 : List Bool
  l5i : Nat
  canceled : Bool
deriving Repr, DecidableEq

/-- A `Server` as constructed in `checkProxies` (src/worker.go):
`&Server{URL: u, timeout: ...}` leaves every other field at its Go zero
value, in particular `l5 = [5]bool{false,...}` and `l5i = 0`. -/
def freshServer (u : String) : Server :=
  { URLs := u, Disabled := 0, Capacity := 0, Latency := 0, Requests := 0
    Positive := 0, Negative := 0
    l5 := [false, false, false, false, false], l5i := 0, canceled := false }

/-- Go method `disable` (src/unnamed/part_002 lines 88-91): `atomic.AddUint32` on the
`Disabled` counter (wrapping at `2^32`) and a call to `s.cancel()`, which
leaves the context canceled. -/
def Server.disable (s : Server) : Server :=
  { s with Disabled := (s.Disabled + 1) % UINT32MOD, canceled := true }

/-- Go method `fiveFailInRow` (src/unnamed/part_002 lines 123-130): scans the whole
ring and returns `true` iff no entry is `true`. -/
def Server.fiveFailInRow (s : Server) : Bool :=
  s.l5.all (fun b => !b)

/-- Go method `start` (src/unnamed/part_002 lines 46-53): increments the in-flight
request counter. (The returned timestamp and snapshot are handled by the
callers in this embedding.) -/
def Server.start (s : Server) : Server :=
  { s with Requests := s.Requests + 1 }

/-- Go method `finish` (src/unnamed/part_002 lines 59-85): records the measured
latency `lat`, decrements `Requests`, bumps `Positive`/`Negative` and writes
the outcome into `l5[l5i]`, advances `l5i` cyclically, then disables the
server when `fiveFailInRow` holds. `ok` is `err == nil`. -/
def Server.finish (ok : Bool) (lat : Int) (s : Server) : Server :=
  let s1 : Server := { s with Latency := lat, Requests := s.Requests - 1 }
  let s2 : Server :=
    if ok then
      { s1 with Positive := s1.Positive + 1, l5 := s1.l5.set s1.l5i true }
    else
      { s1 with Negative := s1.Negative + 1, l5 := s1.l5.set s1.l5i false }
  let s3 : Server := { s2 with l5i := if s2.l5i == 4 then 0 else s2.l5i + 1 }
  if s3.fiveFailInRow then s3.disable else s3

/-- Go method `minimalCapacity` (src/unnamed/part_002 lines 182-189): one probe GET
via `request`; on success set `Capacity = 1`. `request` (src/helpers.go
lines 151-175) performs the HTTP round trip only — it updates none of the
server counters — so the probe outcome `probeOk` is the only effect
channel. -/
def Server.minimalCapacity (probeOk : Bool) (s : Server) : Server :=
  if probeOk then { s with Capacity := 1 } else s

/-- The `for` loop of `autoAdjustCapacity` (src/unnamed/part_002 lines
146-177). `failAt k` tells whether at least one of the `k` concurrent probe
GETs issued at level `k` fails (`stop > 0` after the wait). The loop breaks
at the first failing level, downgrading capacity `1` to `0`; otherwise it
increments the level. `fuel` bounds the unbounded Go loop; `none` means the
loop has not terminated within `fuel` iterations. Levels stay far below
`2^32` for every instance considered, so `Nat` matches the `uint32`
arithmetic. -/
def autoAdjustLoop (failAt : Nat → Bool) : Nat → Nat → Option Nat
  | 0, _ => none
  | fuel + 1, capacity =>
    if failAt capacity then
      some (if capacity == 1 then 0 else capacity)
    else
      autoAdjustLoop failAt fuel (capacity + 1)

/-- Go method `autoAdjustCapacity` starts the probe loop at capacity `1` and stores
the resulting level in `s.Capacity`; this embedding returns the computed
capacity. -/
def autoAdjustCapacity (failAt : Nat → Bool) (fuel : Nat) : Option Nat :=
  autoAdjustLoop failAt fuel 1

/-- Go method `shift` (src/worker.go lines 375-387): under the worker lock, if
`len(targets) <= n` take everything (leaving `nil`), otherwise split off the
first `n`. Returns (batch, remaining queue). -/
def shift (n : Nat) (targets : List String) : List String × List String :=
  if targets.length ≤ n then (targets, [])
  else (targets.take n, targets.drop n)

/-- Go method `retrigger` (src/worker.go lines 363-367): append the URL at the tail of
the target queue. -/
def retrigger (u : String) (targets : List String) : List String :=
  targets ++ [u]

/-- The worker-side state mutated by `processTarget` (src/worker.go):
the target queue (`w.targets`), the completion timestamps forwarded on
`w.timCh` (appended by `stat.addTimestamp`), and the sequence of bodies the
user handler has been invoked with (one list entry per invocation). -/
structure WorkerState where
  targets : List String
  timestamps : List Int
  handled : List String
deriving Repr, DecidableEq

/-- Go function `processTarget` (src/worker.go lines 571-599): `start` the server,
perform the request (outcome `res`: `some body` on success, `none` on
error), `finish` with the outcome, then either `retrigger` the target (on
error) or invoke the handler with the body and publish `time.Now()` as a
completion timestamp (on success). The snapshot sends on `stsCh` carry no
worker-state mutation and are omitted; no claim refers to them. -/
def processTarget (w : WorkerState) (t : String) (s : Server)
    (res : Option String) (lat now : Int) : WorkerState × Server :=
  let s1 := s.start
  let s2 := Server.finish res.isSome lat s1
  match res with
  | none => ({ w with targets := retrigger t w.targets }, s2)
  | some body =>
      ({ w with handled := w.handled ++ [body],
                timestamps := w.timestamps ++ [now] }, s2)

/-- Go call `strings.Split(body, "\n")` (used by src/worker.go line 473):
accumulator-based splitter over the character list. Like the Go `Split` with a
one-character separator it keeps empty fields. -/
def splitNlAux : List Char → List Char → List String
  | [], cur => [String.mk cur.reverse]
  | c :: rest, cur =>
    if c = '\n' then String.mk cur.reverse :: splitNlAux rest []
    else splitNlAux rest (c :: cur)

/-- Go call `strings.Split(body, "\n")` on a whole string. -/
def goSplitNl (s : String) : List String := splitNlAux s.data []

/-- Go call `strings.TrimSpace` (src/worker.go line 474): drop leading and trailing
whitespace. (Go trims all Unicode space; the listings are ASCII, where this
agrees with `Char.isWhitespace`.) -/
def goTrim (s : String) : String :=
  String.mk
    (((s.data.dropWhile Char.isWhitespace).reverse.dropWhile
      Char.isWhitespace).reverse)

/-- One listing line of `fetchProxies` (src/worker.go lines 473-482): trim
the line (`strings.TrimSpace`), skip blanks, parse `schema + "://" + host`
and on success insert the freshly allocated `*url.URL` into the
`proxyMap`. `proxyMap` is `map[*url.URL]bool` (src/worker.go lines
250-251): its keys are *pointers*, and `url.Parse` returns a fresh pointer
on every call, so each successful parse occupies its own key. The URL
contents of the map are therefore exactly the list of successful parses in
insertion order, which is how the map is embedded here. `parse` abstracts
the standard library function `url.Parse` (out of repository scope): `none` models
a parse error. -/
def fetchLine (parse : String → Option String) (schema : String)
    (acc : List String) (line : String) : List String :=
  let host := goTrim line
  if host = "" then acc
  else
    match parse (schema ++ "://" ++ host) with
    | some u => acc ++ [u]
    | none => acc

/-- One source link of `fetchProxies` (src/worker.go lines 454-483): the GET
outcome is `none` when the fetch errors, returns a non-200 status or the
body is unreadable (the link is then skipped), and `some body` on success;
the body is split on `"\n"` and each line processed by `fetchLine`. -/
def fetchLink (parse : String → Option String) (schema : String)
    (acc : List String) (body : Option String) : List String :=
  match body with
  | none => acc
  | some b => (goSplitNl b).foldl (fetchLine parse schema) acc

/-- Go function `fetchProxies` (src/worker.go lines 448-487) over the already-fetched
listing bodies: `sources` pairs each schema with the GET outcomes of its
configured links. The result is the URL contents of the produced
`proxyMap`. -/
def fetchProxies (parse : String → Option String)
    (sources : List (String × List (Option String))) : List String :=
  sources.foldl
    (fun acc sl => sl.2.foldl (fetchLink parse sl.1) acc) []

/-- The tail scan of `rpm` (src/stat.go lines 46-55), walking the reversed
timestamp list: stop at the first sample older than the cutoff, count the
rest. -/
def rpmScan (cutoff : Int) : List Int → Nat
  | [] => 0
  | t :: rest => if t < cutoff then 0 else 1 + rpmScan cutoff rest

/-- Go method `rpm` (src/stat.go lines 46-55): count timestamps from the end while
`ts[i].Compare(now - 1min) >= 0`, breaking at the first older one. Times
are integer seconds. -/
def rpm (timestamps : List Int) (now : Int) : Nat :=
  rpmScan (now - 60) timestamps.reverse

/-!
## Theorems

One theorem per claim (C1-C10), with counterexamples for claims the code
refutes and witnesses for theorems carrying hypotheses.
-/

/-- Helper: the probe loop run from level `j` reaches the first failing
level `c + 1` and returns it (downgraded to `0` when it is level `1`),
provided every level in `[1, c]` succeeds and the fuel covers the remaining
iterations. -/
lemma autoAdjustLoop_firstFail (failAt : Nat → Bool) (c : Nat)
    (hok : ∀ k, 1 ≤ k → k ≤ c → failAt k = false)
    (hfail : failAt (c + 1) = true) :
    ∀ fuel j, 1 ≤ j → j ≤ c + 1 → c + 2 - j ≤ fuel →
      autoAdjustLoop failAt fuel j =
        some (if c + 1 == 1 then 0 else c + 1) := by
  intro fuel
  induction fuel with
  | zero => intro j _ _ _; omega
  | succ fuel ih =>
    intro j h1 h2 h3
    by_cases hj : j = c + 1
    · subst hj
      simp [autoAdjustLoop, hfail]
    · have hjc : j ≤ c := by omega
      have hf : failAt j = false := hok j h1 hjc
      simp only [autoAdjustLoop, hf, Bool.false_eq_true, if_false]
      exact ih (j + 1) (by omega) (by omega) (by omega)

/-- **C1** (amended). With the auto strategy, for every proxy that succeeds
at every concurrency level from `1` up to `c ≥ 1` and fails at level
`c + 1`, `autoAdjustCapacity` sets the capacity to `c + 1` — the first
FAILING level — not `c`: the loop breaks with `capacity` already
incremented past the last all-success level. (A proxy failing already at
level `1` gets capacity `0`.) -/
theorem autoAdjustCapacity_firstFailingLevel (failAt : Nat → Bool)
    (c fuel : Nat) (hc : 1 ≤ c)
    (hok : ∀ k, 1 ≤ k → k ≤ c → failAt k = false)
    (hfail : failAt (c + 1) = true) (hfuel : c + 1 ≤ fuel) :
    autoAdjustCapacity failAt fuel = some (c + 1) := by
  have h := autoAdjustLoop_firstFail failAt c hok hfail fuel 1
    (by omega) (by omega) (by omega)
  have hne : (c + 1 == 1) = false := by
    simp only [beq_eq_false_iff_ne, ne_eq]
    omega
  rw [autoAdjustCapacity, h, hne]
  simp

/-- **C1** counterexample: a proxy that succeeds at concurrency levels
`1..3` and fails at level `4` (`failAt k` iff `4 ≤ k`) is assigned
capacity `4` by the code, not the `3` the claim states. -/
theorem autoAdjustCapacity_counterexample :
    autoAdjustCapacity (fun k => decide (4 ≤ k)) 32 = some 4 ∧
    autoAdjustCapacity (fun k => decide (4 ≤ k)) 32 ≠ some 3 := by decide

/-- Witness for the amended C1: concrete instance `c = 3`, fuel `10`. -/
theorem autoAdjustCapacity_firstFailingLevel_witness :
    autoAdjustCapacity (fun k => decide (4 ≤ k)) 10 = some 4 :=
  autoAdjustCapacity_firstFailingLevel (fun k => decide (4 ≤ k)) 3 10
    (by decide)
    (fun k _ h3 => by
      simp only [decide_eq_false_iff_not]
      omega)
    (by decide) (by decide)

/-- **C2** (the code at the failing input): on a freshly created server, a
single `finish` with a non-nil error — one recorded outcome — already
disables the proxy (`Disabled = 1`, context canceled): the zero-initialized
ring slots count as failures in `fiveFailInRow`, contradicting the claim
that disable fires only when the five most recently RECORDED outcomes are
all failures. -/
theorem finish_singleFailure_disables :
    (Server.finish false 0 (freshServer "p")).Negative = 1 ∧
    (Server.finish false 0 (freshServer "p")).Positive = 0 ∧
    (Server.finish false 0 (freshServer "p")).Disabled = 1 ∧
    (Server.finish false 0 (freshServer "p")).canceled = true := by decide

/-- **C3** (the code at the failing input): a listing body carrying the same
host line twice yields a `proxyMap` whose URL contents contain the parsed
value twice — the map is keyed by the fresh `*url.URL` pointer of each
parse, so no value-level deduplication happens. (`parse` accepts every
string here, as `url.Parse` does on these hosts.) -/
theorem fetchProxies_keepsDuplicates :
    fetchProxies (fun s => some s)
        [("http", [some "1.2.3.4:80\n1.2.3.4:80"])] =
      ["http://1.2.3.4:80", "http://1.2.3.4:80"] ∧
    (fetchProxies (fun s => some s)
        [("http", [some "1.2.3.4:80\n1.2.3.4:80"])]).count
      "http://1.2.3.4:80" = 2 := by decide

/-- **C4**: in `processTarget`, a request error re-enqueues the target at
the queue tail and records no completion timestamp and no handler
invocation; a successful request invokes the handler exactly once with the
body, records exactly one completion timestamp, and does not re-enqueue the
target. -/
theorem processTarget_errorRetriggers_successDelivers
    (w : WorkerState) (t : String) (s : Server) (b : String)
    (lat now : Int) :
    (processTarget w t s none lat now).1.targets = w.targets ++ [t] ∧
    (processTarget w t s none lat now).1.handled = w.handled ∧
    (processTarget w t s none lat now).1.timestamps = w.timestamps ∧
    (processTarget w t s (some b) lat now).1.targets = w.targets ∧
    (processTarget w t s (some b) lat now).1.handled = w.handled ++ [b] ∧
    (processTarget w t s (some b) lat now).1.timestamps
      = w.timestamps ++ [now] :=
  ⟨rfl, rfl, rfl, rfl, rfl, rfl⟩

/-- **C5** counterexample: two `disable` calls do NOT leave the server in
the state one call does — `atomic.AddUint32` makes `Disabled` count the
calls (`2` vs `1`), a difference visible in every published snapshot. -/
theorem disable_not_idempotent :
    Server.disable (Server.disable (freshServer "p")) ≠
      Server.disable (freshServer "p") ∧
    (Server.disable (Server.disable (freshServer "p"))).Disabled = 2 ∧
    (Server.disable (freshServer "p")).Disabled = 1 := by decide

/-- **C5** (amended). `disable` latches the disabled PREDICATE: after one or
two calls the server satisfies `Disabled > 0` and its context is canceled
(and stays canceled — the standard-library token does not re-fire), but the
`Disabled` counter itself increments on every call (absent `uint32`
wrap-around), so repeated calls do not leave the state unchanged. -/
theorem disable_latchesPredicate (s : Server)
    (h : s.Disabled + 2 < UINT32MOD) :
    0 < (Server.disable s).Disabled ∧
    0 < (Server.disable (Server.disable s)).Disabled ∧
    (Server.disable s).canceled = true ∧
    (Server.disable (Server.disable s)).canceled = true ∧
    (Server.disable (Server.disable s)).Disabled =
      (Server.disable s).Disabled + 1 := by
  have h1 : (s.Disabled + 1) % UINT32MOD = s.Disabled + 1 :=
    Nat.mod_eq_of_lt (by omega)
  have h2 : (s.Disabled + 1 + 1) % UINT32MOD = s.Disabled + 1 + 1 :=
    Nat.mod_eq_of_lt (by omega)
  simp only [Server.disable, h1, h2]
  refine ⟨by omega, by omega, trivial, trivial, trivial⟩

/-- Witness for the amended C5 at a fresh server. -/
theorem disable_latchesPredicate_witness :
    0 < (Server.disable (Server.disable (freshServer "q"))).Disabled ∧
    (Server.disable (Server.disable (freshServer "q"))).Disabled =
      (Server.disable (freshServer "q")).Disabled + 1 := by
  have h := disable_latchesPredicate (freshServer "q") (by decide)
  exact ⟨h.2.1, h.2.2.2.2⟩

/-- **C6** counterexample: after a successful minimal-strategy probe
followed by one successful target fetch, the proxy has `Positive = 1`, not
the `2` the claim states — the probe GET bypasses `start`/`finish` and
`request` updates no counters. -/
theorem probeCounters_counterexample :
    (processTarget ⟨[], [], []⟩ "t"
        (Server.minimalCapacity true (freshServer "p"))
        (some "ok") 0 0).2.Positive = 1 ∧
    ¬ ((processTarget ⟨[], [], []⟩ "t"
        (Server.minimalCapacity true (freshServer "p"))
        (some "ok") 0 0).2.Positive = 2) ∧
    (processTarget ⟨[], [], []⟩ "t"
        (Server.minimalCapacity true (freshServer "p"))
        (some "ok") 0 0).2.Negative = 0 := by decide

/-- **C6** (amended). Probe GETs do NOT count toward the positive/negative
counters: a successful minimal-strategy probe leaves both at `0` (setting
only `Capacity = 1`), and one subsequent successful fetch brings
`Positive` to exactly `1` with `Negative = 0`. -/
theorem probesDoNotCount (u t b : String) (w : WorkerState)
    (lat now : Int) :
    (Server.minimalCapacity true (freshServer u)).Positive = 0 ∧
    (Server.minimalCapacity true (freshServer u)).Negative = 0 ∧
    (Server.minimalCapacity true (freshServer u)).Capacity = 1 ∧
    (processTarget w t (Server.minimalCapacity true (freshServer u))
        (some b) lat now).2.Positive = 1 ∧
    (processTarget w t (Server.minimalCapacity true (freshServer u))
        (some b) lat now).2.Negative = 0 :=
  ⟨rfl, rfl, rfl, rfl, rfl⟩

/-- Helper: on a list sorted in non-increasing order, the break-at-first-old
scan counts exactly the elements at or after the cutoff. -/
lemma rpmScan_eq_filterLength (c : Int) :
    ∀ r : List Int, r.Pairwise (fun a b => b ≤ a) →
      rpmScan c r = (r.filter (fun t => decide (c ≤ t))).length := by
  intro r
  induction r with
  | nil => intro _; rfl
  | cons t rest ih =>
    intro hp
    rw [List.pairwise_cons] at hp
    by_cases hc : t < c
    · have hrest : rest.filter (fun x => decide (c ≤ x)) = [] := by
        rw [List.filter_eq_nil_iff]
        intro a ha
        have hat := hp.1 a ha
        simp only [decide_eq_true_eq]
        omega
      have ht : (decide (c ≤ t)) = false := by
        simp only [decide_eq_false_iff_not]
        omega
      simp [rpmScan, hc, ht, hrest]
    · have ht : (decide (c ≤ t)) = true := by
        simp only [decide_eq_true_eq]
        omega
      simp only [rpmScan, if_neg hc, List.filter_cons, ht, if_true,
        List.length_cons, ih hp.2]
      omega

/-- **C7**: for timestamps appended in non-decreasing time order, `rpm`
returns exactly the number of timestamps `t` with `t ≥ now − 60`; on zero
timestamps it returns `0`. -/
theorem rpm_countsLastMinute (ts : List Int) (now : Int)
    (hmono : ts.Pairwise (fun a b => a ≤ b)) :
    rpm ts now = (ts.filter (fun t => decide (now - 60 ≤ t))).length ∧
    rpm [] now = 0 := by
  refine ⟨?_, rfl⟩
  have hrev : ts.reverse.Pairwise (fun a b => b ≤ a) := by
    rw [List.pairwise_reverse]
    exact hmono
  rw [rpm, rpmScan_eq_filterLength _ _ hrev, List.filter_reverse]
  exact List.length_reverse _

/-- Witness for C7: three ordered samples of which the last two fall in the
final minute. -/
theorem rpm_countsLastMinute_witness :
    rpm [100, 150, 160] 200 = 2 ∧ rpm [] 200 = 0 := by
  have h := rpm_countsLastMinute [100, 150, 160] 200 (by decide)
  exact ⟨h.1.trans (by decide), h.2⟩

/-- **C8**: on a queue with at least `n` items, `shift n` then `retrigger u`
yields the same batch and the same final queue as `retrigger u` then
`shift n`. -/
theorem shift_retrigger_commute (n : Nat) (q : List String) (u : String)
    (h : n ≤ q.length) :
    (shift n q).1 = (shift n (retrigger u q)).1 ∧
    retrigger u (shift n q).2 = (shift n (retrigger u q)).2 := by
  unfold shift retrigger
  by_cases hle : q.length ≤ n
  · have hn : n = q.length := by omega
    subst hn
    have hng : ¬ (q ++ [u]).length ≤ q.length := by
      simp [List.length_append]
    rw [if_pos hle, if_neg hng]
    constructor
    · rw [List.take_append_of_le_length le_rfl,
        List.take_of_length_le le_rfl]
    · rw [List.drop_append_of_le_length le_rfl,
        List.drop_eq_nil_of_le le_rfl]
  · have hng : ¬ (q ++ [u]).length ≤ n := by
      simp only [List.length_append, List.length_cons, List.length_nil]
      omega
    rw [if_neg hle, if_neg hng]
    constructor
    · rw [List.take_append_of_le_length h]
    · rw [List.drop_append_of_le_length h]

/-- Witness for C8: queue of three, `n = 2`. -/
theorem shift_retrigger_commute_witness :
    (shift 2 ["a", "b", "c"]).1 = (shift 2 (retrigger "z" ["a", "b", "c"])).1 ∧
    retrigger "z" (shift 2 ["a", "b", "c"]).2 =
      (shift 2 (retrigger "z" ["a", "b", "c"])).2 :=
  shift_retrigger_commute 2 ["a", "b", "c"] "z" (by decide)

/-- **C9**: `shift n` returns the first `min n len` items (the `take`) and
leaves exactly the `drop`; in particular it returns everything and leaves
the queue empty when `len ≤ n`, returns `[]` on the empty queue, and
empties a queue of exactly `n` items. -/
theorem shift_takeDrop (n : Nat) (q : List String) :
    (shift n q).1 = q.take n ∧
    (shift n q).2 = q.drop n ∧
    (shift n q).1.length = min n q.length ∧
    shift n ([] : List String) = ([], []) ∧
    (shift q.length q).2 = [] := by
  have h1 : (shift n q).1 = q.take n := by
    unfold shift
    by_cases h : q.length ≤ n
    · simp [h, List.take_of_length_le h]
    · simp [h]
  have h2 : (shift n q).2 = q.drop n := by
    unfold shift
    by_cases h : q.length ≤ n
    · simp [h, (List.drop_eq_nil_of_le h).symm]
    · simp [h]
  refine ⟨h1, h2, ?_, ?_, ?_⟩
  · rw [h1, List.length_take]
  · unfold shift
    simp
  · unfold shift
    simp

/-- Helper: folding `finish` over a list of outcome/latency pairs, as the
sequence of `finish` calls a server receives. -/
def applyFinishes (outs : List (Bool × Int)) (s : Server) : Server :=
  outs.foldl (fun acc o => Server.finish o.1 o.2 acc) s

/-- Helper: the disable-or-not branch at the end of `finish` never touches
the ring index. -/
lemma ite_disable_l5i (c : Prop) [Decidable c] (r : Server) :
    (if c then r.disable else r).l5i = r.l5i := by
  split <;> rfl

/-- Helper: one `finish` call keeps the ring index below `5`. -/
lemma finish_l5i_lt (ok : Bool) (lat : Int) (s : Server)
    (h : s.l5i < 5) : (Server.finish ok lat s).l5i < 5 := by
  have hstep : (if (s.l5i == 4) = true then 0 else s.l5i + 1) < 5 := by
    by_cases h4 : s.l5i = 4
    · simp [h4]
    · have hb : (s.l5i == 4) = false := by
        simp only [beq_eq_false_iff_ne, ne_eq]
        exact h4
      rw [hb]
      simp only [Bool.false_eq_true, if_false]
      omega
  unfold Server.finish
  cases ok <;>
    simp only [Bool.false_eq_true, if_false, if_true, ite_disable_l5i] <;>
    exact hstep

/-- **C10**: starting from a freshly created server, after any sequence of
`finish` calls the ring index `l5i` stays in `{0, 1, 2, 3, 4}`, so the
write into the fixed five-element `l5` array is always in bounds. -/
theorem l5i_alwaysInBounds (outs : List (Bool × Int)) (u : String) :
    (applyFinishes outs (freshServer u)).l5i < 5 := by
  have key : ∀ (os : List (Bool × Int)) (s : Server), s.l5i < 5 →
      (applyFinishes os s).l5i < 5 := by
    intro os
    induction os with
    | nil => intro s hs; exact hs
    | cons o rest ih =>
      intro s hs
      simp only [applyFinishes, List.foldl_cons] at ih ⊢
      exact ih (Server.finish o.1 o.2 s) (finish_l5i_lt o.1 o.2 s hs)
  exact key outs (freshServer u) (by simp [freshServer])

end Httptines
